import Mathlib

/-! Poco `PathImpl` (Path_WIN32.cpp): shallow embedding and verified properties

The C++ functions of `Foundation/src/Path_WIN32.cpp` are embedded as pure Lean
functions. Everything the functions obtain from outside the file (the Win32
calls, `EnvironmentImpl`, `UnicodeConverter`, the constant `MAX_PATH_LEN`) is a
field of the structure `Platform`, so every theorem quantifies over all
behaviours of those collaborators.

* `std::string` is a list of characters (`Str`);
* a `std::wstring` is a list of code units (`WStr`);
* a native buffer is the memory that starts at its first unit (`Memory`, a
  function from the index of a unit to the unit); the size of a buffer is fixed
  by the code that allocates it;
* a call ends in one of three ways (`Outcome`): it returns a value, it throws
  an exception, or it reads past the end of a buffer, which C++ leaves
  undefined.
-/

namespace Poco

/-- A `std::string`: a sequence of characters. -/
abbrev Str := List Char

/-- A sequence of `wchar_t` units. -/
abbrev WStr := List Nat

/-- The exception classes that occur in `Path_WIN32.cpp` and its collaborators;
`Other` stands for any further class, told apart by a tag. -/
inductive ExceptionClass where
  | SystemException
  | NotFoundException
  | AssertionViolationException
  | Other (tag : Nat)
  deriving DecidableEq, Repr

/-- A thrown `Poco::Exception`: its class and its message. -/
structure Exception where
  cls : ExceptionClass
  message : String
  deriving DecidableEq, Repr

deriving instance DecidableEq for Except

/-- How a call ends: it returns a value (`ok`), it throws an exception
(`error`), or it reads a unit past the end of a buffer (`undefined`: the C++
standard assigns no behaviour to such a read). -/
inductive Outcome (α : Type) where
  | ok (a : α)
  | error (e : Exception)
  | undefined
  deriving DecidableEq, Repr

/-- Sequencing of calls: an exception or an undefined read ends the sequence. -/
def Outcome.bind {α β : Type} (x : Outcome α) (f : α → Outcome β) : Outcome β :=
  match x with
  | Outcome.ok a => f a
  | Outcome.error e => Outcome.error e
  | Outcome.undefined => Outcome.undefined

instance : Monad Outcome where
  pure := Outcome.ok
  bind := Outcome.bind

/-- A call of a collaborator that returns or throws. -/
def Outcome.ofExcept {α : Type} (x : Except Exception α) : Outcome α :=
  match x with
  | Except.ok a => Outcome.ok a
  | Except.error e => Outcome.error e

/-- The expression `SystemException(msg)`. -/
def SystemException (msg : String) : Exception :=
  ⟨ExceptionClass.SystemException, msg⟩

/-- Whether a handler `catch (NotFoundException&)` catches the exception. -/
def Exception.isNotFound (e : Exception) : Bool :=
  match e.cls with
  | ExceptionClass.NotFoundException => true
  | _ => false

/-- The memory that starts at the first unit of a native buffer. -/
abbrev Memory := Nat → Nat

/-- The collaborators of `PathImpl`. A native call that fills a buffer is a
function from its inputs to the returned `DWORD` and the memory at the buffer
after the call. -/
structure Platform where
  /-- `PathImpl::MAX_PATH_LEN` (declared in `Path_WIN32.h`). -/
  MAX_PATH_LEN : Nat
  /-- `UnicodeConverter::toUTF8(const std::wstring&, std::string&)`. -/
  toUTF8 : WStr → Str
  /-- `UnicodeConverter::toUTF16(const std::string&, std::wstring&)`. -/
  toUTF16 : Str → WStr
  /-- `EnvironmentImpl::hasImpl(name)`. -/
  hasImpl : Str → Bool
  /-- `EnvironmentImpl::getImpl(name)`: the value, or the exception thrown. -/
  getImpl : Str → Except Exception Str
  /-- `GetCurrentDirectoryW(nBufferLength, lpBuffer)`, by `nBufferLength`. -/
  GetCurrentDirectoryW : Nat → Nat × Memory
  /-- `GetSystemDirectoryW(lpBuffer, uSize)`, by `uSize`. -/
  GetSystemDirectoryW : Nat → Nat × Memory
  /-- `GetTempPathW(nBufferLength, lpBuffer)`, by `nBufferLength`. -/
  GetTempPathW : Nat → Nat × Memory
  /-- `GetLongPathNameW(buf, buf, cchBuffer)`, by the memory at `buf` before the
  call and `cchBuffer`. -/
  GetLongPathNameW : Memory → Nat → Nat × Memory
  /-- `GetModuleFileNameW(NULL, lpFilename, nSize)`, by `nSize`. -/
  GetModuleFileNameW : Nat → Nat × Memory
  /-- `GetLastError()` right after `GetModuleFileNameW`. -/
  GetLastError : Nat
  /-- `ExpandEnvironmentStringsW(lpSrc, lpDst, nSize)`, by `lpSrc` and `nSize`. -/
  ExpandEnvironmentStringsW : WStr → Nat → Nat × Memory
  /-- `GetLogicalDriveStringsW(nBufferLength, lpBuffer)`, by `nBufferLength`. -/
  GetLogicalDriveStringsW : Nat → Nat × Memory

/-- The Win32 error code `ERROR_INSUFFICIENT_BUFFER`. -/
def ERROR_INSUFFICIENT_BUFFER : Nat := 122

/-- `static_cast<DWORD>(x)`: reduction to 32 bits. -/
def toDWORD (x : Nat) : Nat := x % 2 ^ 32

/-- The subtraction `buffer.size() - 1` on `std::size_t` (64 bits): it wraps
around when the size is 0. -/
def sizeMinusOne (size : Nat) : Nat := (size % 2 ^ 64 + (2 ^ 64 - 1)) % 2 ^ 64

/-- The scan for the terminating NUL of the wide string at a pointer (no length
is passed): from the unit at index `i`, with `remaining` units of the buffer
left. The result is the units before the first NUL; `none` means that the scan
has passed the last unit of the buffer without meeting a NUL, so that its next
read is outside the buffer. -/
def scanString (buffer : Memory) : Nat → Nat → Option WStr
  | 0, _ => none
  | remaining + 1, i =>
    if buffer i = 0 then some []
    else (scanString buffer remaining (i + 1)).map (fun w => buffer i :: w)

/-- The zero-terminated wide string that starts at `buffer.begin()`, for a
buffer of `size` units; `none` when the buffer holds no NUL (the read goes past
the buffer). -/
def cstr (buffer : Memory) (size : Nat) : Option WStr := scanString buffer size 0

/-- The units before the first NUL among the first `size` units of the buffer
(all `size` units when there is no NUL among them). -/
def stringIn (buffer : Memory) (size : Nat) : WStr :=
  ((List.range size).map buffer).takeWhile (fun u => u != 0)

/-- `UnicodeConverter::toUTF8(const wchar_t*, std::string&)` on
`buffer.begin()`, for a buffer of `size` units: the conversion of the
zero-terminated string at the pointer. Without a NUL in the buffer the scan
for the terminator reads past the buffer. -/
def toUTF8FromPointer (toUTF8 : WStr → Str) (buffer : Memory) (size : Nat) : Outcome Str :=
  match cstr buffer size with
  | some w => Outcome.ok (toUTF8 w)
  | none => Outcome.undefined

/-- Modelled from the spec: `Poco::Buffer<wchar_t>` (Buffer.h is not at hand).
The element write `buffer[i] = v` on a buffer of `size` units is checked
against the size; an index outside the buffer raises an assertion violation. -/
def bufferSet (buffer : Memory) (size i v : Nat) : Outcome Memory :=
  if i < size then Outcome.ok (fun j => if j = i then v else buffer j)
  else Outcome.error ⟨ExceptionClass.AssertionViolationException, "index < _used"⟩

namespace PathImpl

/-- Modelled from the spec: the default argument of `extendPath`, declared in
`Path_WIN32.h` (not at hand): "the native separator alone". -/
def defaultExtensionPath : Str := ['\\']

/-- `PathImpl::extendPath(path, extensionPath)`; the result is the new value of
`path`. -/
def extendPath (path : Str) (extensionPath : Str) : Str :=
  if path.length > 0 ∧ path.getLast? ≠ some '\\' then path ++ extensionPath
  else path

/-- `PathImpl::currentImpl()`. -/
def currentImpl (p : Platform) : Outcome Str :=
  let len := (p.GetCurrentDirectoryW 0).1
  if len > 0 then
    let call := p.GetCurrentDirectoryW len
    let n := call.1
    let buffer := call.2
    if n > 0 ∧ n ≤ len then
      toUTF8FromPointer p.toUTF8 buffer len >>= fun result =>
        pure (extendPath result defaultExtensionPath)
    else Outcome.error (SystemException "Cannot get current directory")
  else Outcome.error (SystemException "Cannot get current directory")

/-- `PathImpl::systemImpl()`. -/
def systemImpl (p : Platform) : Outcome Str :=
  let call := p.GetSystemDirectoryW (toDWORD p.MAX_PATH_LEN)
  let n := call.1
  let buffer := call.2
  if n > 0 then
    let call2 := p.GetLongPathNameW buffer (toDWORD p.MAX_PATH_LEN)
    let n := call2.1
    let buffer := call2.2
    if n ≤ 0 then
      Outcome.error (SystemException "Cannot get system directory long path name")
    else
      toUTF8FromPointer p.toUTF8 buffer p.MAX_PATH_LEN >>= fun result =>
        pure (extendPath result defaultExtensionPath)
  else Outcome.error (SystemException "Cannot get temporary directory path")

/-- `PathImpl::homeImpl()`. -/
def homeImpl (p : Platform) : Outcome Str := do
  let result ←
    (if p.hasImpl "USERPROFILE".toList then
      Outcome.ofExcept (p.getImpl "USERPROFILE".toList)
    else if p.hasImpl "HOMEDRIVE".toList && p.hasImpl "HOMEPATH".toList then
      (do
        let result ← Outcome.ofExcept (p.getImpl "HOMEDRIVE".toList)
        let path ← Outcome.ofExcept (p.getImpl "HOMEPATH".toList)
        pure (result ++ path))
    else
      systemImpl p)
  pure (extendPath result defaultExtensionPath)

/-- The statement `try result = getImpl(name); catch (NotFoundException&)
result = fallback();` shared by `configHomeImpl`, `dataHomeImpl` and
`configImpl`: only a `NotFoundException` is caught. -/
def getOrFallback (p : Platform) (name : Str) (fallback : Outcome Str) :
    Outcome Str :=
  match p.getImpl name with
  | Except.ok v => Outcome.ok v
  | Except.error e => if e.isNotFound then fallback else Outcome.error e

/-- `PathImpl::configHomeImpl()`. -/
def configHomeImpl (p : Platform) : Outcome Str := do
  let result ← getOrFallback p "APPDATA".toList (homeImpl p)
  pure (extendPath result defaultExtensionPath)

/-- `PathImpl::dataHomeImpl()`. -/
def dataHomeImpl (p : Platform) : Outcome Str := do
  let result ← getOrFallback p "LOCALAPPDATA".toList (configHomeImpl p)
  pure (extendPath result defaultExtensionPath)

/-- `PathImpl::tempImpl()`. -/
def tempImpl (p : Platform) : Outcome Str :=
  let call := p.GetTempPathW (toDWORD p.MAX_PATH_LEN)
  let n := call.1
  let buffer := call.2
  if n > 0 then
    let call2 := p.GetLongPathNameW buffer (toDWORD p.MAX_PATH_LEN)
    let n := call2.1
    let buffer := call2.2
    if n ≤ 0 then
      Outcome.error (SystemException "Cannot get temporary directory long path name")
    else
      toUTF8FromPointer p.toUTF8 buffer p.MAX_PATH_LEN >>= fun result =>
        pure (extendPath result defaultExtensionPath)
  else Outcome.error (SystemException "Cannot get temporary directory path")

/-- `PathImpl::cacheHomeImpl()`. -/
def cacheHomeImpl (p : Platform) : Outcome Str :=
  tempImpl p

/-- `PathImpl::selfImpl()`. -/
def selfImpl (p : Platform) : Outcome Str :=
  let call := p.GetModuleFileNameW (toDWORD p.MAX_PATH_LEN)
  let n := call.1
  let buffer := call.2
  let err := p.GetLastError
  if n > 0 then
    if err = ERROR_INSUFFICIENT_BUFFER then
      Outcome.error (SystemException "Buffer too small to get executable name.")
    else toUTF8FromPointer p.toUTF8 buffer p.MAX_PATH_LEN
  else Outcome.error (SystemException "Cannot get executable name.")

/-- `PathImpl::configImpl()`. -/
def configImpl (p : Platform) : Outcome Str := do
  let result ← getOrFallback p "PROGRAMDATA".toList (systemImpl p)
  pure (extendPath result defaultExtensionPath)

/-- `PathImpl::nullImpl()`. -/
def nullImpl : Str := "NUL:".toList

/-- `PathImpl::expandImpl(path)`. -/
def expandImpl (p : Platform) (path : Str) : Outcome Str :=
  let upath := p.toUTF16 path
  let call := p.ExpandEnvironmentStringsW upath (toDWORD p.MAX_PATH_LEN)
  let n := call.1
  let buffer := call.2
  if n > 0 ∧ n < sizeMinusOne p.MAX_PATH_LEN then
    bufferSet buffer p.MAX_PATH_LEN (n + 1) 0 >>= fun buffer =>
      toUTF8FromPointer p.toUTF8 buffer p.MAX_PATH_LEN
  else Outcome.ok path

/-- `std::vector::clear()`. -/
def vectorClear (_roots : List Str) : List Str := []

/-- The constant `bufferSize` of `listRootsImpl`. -/
def bufferSize : Nat := 128

/-- The inner loop `while (it < end && *it) udev += *it++;` of `listRootsImpl`,
from position `it` with `udev` collected so far; the result is the final `it`
and `udev`. One unit of `fuel` is spent per test of the loop condition; `none`
means the fuel ran out. -/
def collectEntry (buffer : Memory) (end_ : Nat) :
    Nat → Nat → WStr → Option (Nat × WStr)
  | 0, _, _ => none
  | fuel + 1, it, udev =>
    if it < end_ then
      if buffer it ≠ 0 then collectEntry buffer end_ fuel (it + 1) (udev ++ [buffer it])
      else some (it, udev)
    else some (it, udev)

/-- The outer loop `while (it < end) { ... }` of `listRootsImpl`, from position
`it` with `roots` filled so far. One unit of `fuel` is spent per test of the
loop condition; `none` means the fuel ran out. -/
def scanRoots (toUTF8 : WStr → Str) (buffer : Memory) (end_ : Nat) :
    Nat → Nat → List Str → Option (List Str)
  | 0, _, _ => none
  | fuel + 1, it, roots =>
    if it < end_ then
      match collectEntry buffer end_ (bufferSize + 1) it [] with
      | none => none
      | some (it1, udev) =>
        let dev := toUTF8 udev
        scanRoots toUTF8 buffer end_ fuel (it1 + 1) (roots ++ [dev])
    else some roots

/-- `PathImpl::listRootsImpl(roots)`: from the vector passed in to the vector
left in `roots`. Both loops get `bufferSize + 1` units of fuel; `none` means a
loop ran out of it. -/
def listRootsImpl (p : Platform) (roots : List Str) : Option (List Str) :=
  let roots := vectorClear roots
  let call := p.GetLogicalDriveStringsW (bufferSize - 1)
  let n := call.1
  let buffer := call.2
  let end_ := if n > bufferSize then bufferSize else n
  scanRoots p.toUTF8 buffer end_ (bufferSize + 1) 0 roots

/-- The units of `buffer` at the positions `start, ..., start + len - 1`. -/
def runUnits (buffer : Memory) (start len : Nat) : WStr :=
  (List.range len).map (fun j => buffer (start + j))

/-- The entries in sequence, each followed by one NUL. -/
def joinEntries : List WStr → WStr
  | [] => []
  | e :: es => e ++ 0 :: joinEntries es

/-- The native multi-string encoding of a list of entries: each entry followed
by one NUL, then one extra NUL. -/
def multiString (entries : List WStr) : WStr := joinEntries entries ++ [0]

/-- The string `s` is the conversion of a complete entry of an enumeration
buffer of `size` units: a run of non-NUL units that starts at the beginning of
the buffer or right after a NUL and is followed inside the buffer by its
terminating NUL. -/
def CompleteEntry (toUTF8 : WStr → Str) (buffer : Memory) (size : Nat) (s : Str) :
    Prop :=
  ∃ start len, start + len < size ∧
    (start = 0 ∨ buffer (start - 1) = 0) ∧
    (∀ j, j < len → buffer (start + j) ≠ 0) ∧
    buffer (start + len) = 0 ∧
    s = toUTF8 (runUnits buffer start len)

/-- The string `s` is the conversion of a cut-off entry of an enumeration
buffer of `size` units: a run of non-NUL units that starts at the beginning of
the buffer or right after a NUL and reaches the last unit of the buffer. -/
def CutOffEntry (toUTF8 : WStr → Str) (buffer : Memory) (size : Nat) (s : Str) :
    Prop :=
  ∃ start len, start + len = size ∧
    (start = 0 ∨ buffer (start - 1) = 0) ∧
    (∀ j, j < len → buffer (start + j) ≠ 0) ∧
    s = toUTF8 (runUnits buffer start len)

/-- The invariant of a resolved directory: the string is empty or its last
character is the native separator. -/
def EndsWithSeparator (r : Str) : Prop := r = [] ∨ r.getLast? = some '\\'

/-! ## Concrete platforms used to instantiate the theorems -/

/-- The memory whose first units are those of `l`, followed by NULs. -/
def memOf (l : WStr) : Memory := fun i => l.getD i 0

/-- An environment given by a finite table: `hasImpl` holds for the names of
the table and `getImpl` throws `NotFoundException` for every other name. -/
def tableHas (table : List (String × String)) (name : Str) : Bool :=
  table.any (fun kv => kv.1.toList == name)

/-- The `getImpl` of the environment given by `table`. -/
def tableGet (table : List (String × String)) (name : Str) : Except Exception Str :=
  match table.find? (fun kv => kv.1.toList == name) with
  | some kv => Except.ok kv.2.toList
  | none => Except.error ⟨ExceptionClass.NotFoundException, String.mk name⟩

/-- A platform with the environment `table`, on which every directory query
answers with the 3 units of `C:\` and the conversions map a unit to the
character of the same code. -/
def samplePlatform (table : List (String × String)) : Platform where
  MAX_PATH_LEN := 8
  toUTF8 := fun w => w.map Char.ofNat
  toUTF16 := fun s => s.map Char.toNat
  hasImpl := tableHas table
  getImpl := tableGet table
  GetCurrentDirectoryW := fun cap => if cap = 0 then (4, memOf []) else (3, memOf [67, 58, 92])
  GetSystemDirectoryW := fun _ => (3, memOf [67, 58, 92])
  GetTempPathW := fun _ => (3, memOf [67, 58, 92])
  GetLongPathNameW := fun buffer _ => (3, buffer)
  GetModuleFileNameW := fun _ => (3, memOf [67, 58, 92])
  GetLastError := 0
  ExpandEnvironmentStringsW := fun w _ => (w.length + 1, memOf w)
  GetLogicalDriveStringsW := fun _ => (8, memOf [67, 58, 92, 0, 68, 58, 92, 0, 0])

/-- A platform on which the system-directory and the temp-directory native
queries both report 0. -/
def zeroPlatform : Platform :=
  { samplePlatform [] with
    GetSystemDirectoryW := fun _ => (0, memOf [])
    GetTempPathW := fun _ => (0, memOf []) }

/-- A platform whose current-directory query reports 4 units for the probe and
for the second call, and leaves a buffer of 4 units that holds the unit of `A`
everywhere, with no NUL. -/
def unterminatedPlatform : Platform :=
  { samplePlatform [] with
    GetCurrentDirectoryW := fun _ => (4, fun _ => 65) }

/-- A platform whose root enumeration reports 200 units and leaves a buffer
that holds the unit of `A` everywhere. -/
def fullPlatform : Platform :=
  { samplePlatform [] with
    GetLogicalDriveStringsW := fun _ => (200, fun _ => 65) }

/-- A platform whose `getImpl` fails for every variable with an exception that
is not a `NotFoundException`. -/
def deniedPlatform : Platform :=
  { samplePlatform [] with
    getImpl := fun _ => Except.error ⟨ExceptionClass.Other 5, "access denied"⟩ }

end PathImpl

end Poco

namespace Poco.PathImpl

/-! ## `extendPath` -/

theorem extendPath_of_open (s : Str) (h1 : s ≠ []) (h2 : s.getLast? ≠ some '\\') :
    extendPath s defaultExtensionPath = s ++ ['\\'] := by
  have hlen : s.length > 0 := List.length_pos.mpr h1
  simp [extendPath, defaultExtensionPath, hlen, h2]

theorem extendPath_of_closed (s : Str) (h : EndsWithSeparator s) :
    extendPath s defaultExtensionPath = s := by
  rcases h with h | h
  · subst h; simp [extendPath]
  · simp [extendPath, h]

theorem endsWithSeparator_extendPath (s : Str) :
    EndsWithSeparator (extendPath s defaultExtensionPath) := by
  by_cases h : s.length > 0 ∧ s.getLast? ≠ some '\\'
  · right
    simp [extendPath, defaultExtensionPath, h]
  · rw [extendPath, if_neg h]
    by_cases h1 : s = []
    · exact Or.inl h1
    · right
      have hlen : s.length > 0 := List.length_pos.mpr h1
      by_contra h2
      exact h ⟨hlen, h2⟩

theorem extendPath_idem (s : Str) :
    extendPath (extendPath s defaultExtensionPath) defaultExtensionPath =
      extendPath s defaultExtensionPath :=
  extendPath_of_closed _ (endsWithSeparator_extendPath s)

/-- C1: with the default suffix, `extendPath` turns a non-empty string whose
last character is not the separator into the string followed by the separator,
and leaves an empty string or a string that ends with the separator as it is. -/
theorem extendPath_default (s : Str) :
    (s ≠ [] ∧ s.getLast? ≠ some '\\' →
      extendPath s defaultExtensionPath = s ++ ['\\']) ∧
    (s = [] ∨ s.getLast? = some '\\' → extendPath s defaultExtensionPath = s) :=
  ⟨fun h => extendPath_of_open s h.1 h.2, fun h => extendPath_of_closed s h⟩

theorem extendPath_default_witness :
    extendPath "C:\\Users".toList defaultExtensionPath = "C:\\Users\\".toList ∧
    extendPath "C:\\".toList defaultExtensionPath = "C:\\".toList ∧
    extendPath [] defaultExtensionPath = [] :=
  ⟨(extendPath_default "C:\\Users".toList).1 (by decide),
   (extendPath_default "C:\\".toList).2 (by decide),
   (extendPath_default []).2 (by decide)⟩

/-! ## The scan for the terminating NUL -/

theorem stringUnits_succ (buffer : Memory) (i r : Nat) :
    (List.range (r + 1)).map (fun j => buffer (i + j)) =
      buffer i :: (List.range r).map (fun j => buffer (i + 1 + j)) := by
  rw [List.range_succ_eq_map, List.map_cons, List.map_map]
  simp only [Nat.add_zero, List.cons.injEq, true_and]
  apply List.map_congr_left
  intro j _
  simp only [Function.comp_apply]
  congr 1
  omega

/-- With a NUL among the `r` units from index `i` on, the scan returns the
units before the first of them. -/
theorem scanString_of_nul (buffer : Memory) :
    ∀ (r i : Nat), (∃ j, j < r ∧ buffer (i + j) = 0) →
      scanString buffer r i =
        some (((List.range r).map (fun j => buffer (i + j))).takeWhile (fun u => u != 0)) := by
  intro r
  induction r with
  | zero => rintro i ⟨j, hj, _⟩; omega
  | succ r ih =>
    rintro i ⟨j, hj, hz⟩
    rw [scanString, stringUnits_succ]
    by_cases h0 : buffer i = 0
    · rw [if_pos h0, List.takeWhile_cons]
      simp [h0]
    · have hj0 : j ≠ 0 := by
        rintro rfl
        exact h0 (by simpa using hz)
      have hrec := ih (i + 1) ⟨j - 1, by omega, by
        rw [← hz]; congr 1; omega⟩
      rw [if_neg h0, hrec, List.takeWhile_cons]
      simp [h0]

/-- Without a NUL among the `r` units from index `i` on, the scan passes the
last of them. -/
theorem scanString_of_no_nul (buffer : Memory) :
    ∀ (r i : Nat), (∀ j, j < r → buffer (i + j) ≠ 0) → scanString buffer r i = none := by
  intro r
  induction r with
  | zero => intro i _; rfl
  | succ r ih =>
    intro i h
    have h0 : buffer i ≠ 0 := by simpa using h 0 (by omega)
    have hrec := ih (i + 1) (fun j hj => by
      have := h (j + 1) (by omega)
      rwa [Nat.add_assoc, Nat.add_comm 1 j])
    rw [scanString, if_neg h0, hrec]
    rfl

theorem cstr_of_nul (buffer : Memory) (size : Nat)
    (h : ∃ j, j < size ∧ buffer j = 0) :
    cstr buffer size = some (stringIn buffer size) := by
  unfold cstr stringIn
  have := scanString_of_nul buffer size 0 (by simpa using h)
  simpa using this

theorem cstr_of_no_nul (buffer : Memory) (size : Nat)
    (h : ¬ ∃ j, j < size ∧ buffer j = 0) :
    cstr buffer size = none := by
  unfold cstr
  apply scanString_of_no_nul
  intro j hj hz
  exact h ⟨j, hj, by simpa using hz⟩

theorem toUTF8FromPointer_of_nul (toUTF8 : WStr → Str) (buffer : Memory) (size : Nat)
    (h : ∃ j, j < size ∧ buffer j = 0) :
    toUTF8FromPointer toUTF8 buffer size = Outcome.ok (toUTF8 (stringIn buffer size)) := by
  unfold toUTF8FromPointer
  rw [cstr_of_nul buffer size h]

theorem toUTF8FromPointer_of_no_nul (toUTF8 : WStr → Str) (buffer : Memory) (size : Nat)
    (h : ¬ ∃ j, j < size ∧ buffer j = 0) :
    toUTF8FromPointer toUTF8 buffer size = Outcome.undefined := by
  unfold toUTF8FromPointer
  rw [cstr_of_no_nul buffer size h]

/-! ## The environment-derived queries -/

/-- A query of the form `result = source; extendPath(result); return result;`
succeeds only with a string that ends with the separator. -/
theorem bind_extendPath_endsWithSeparator (source : Outcome Str) (r : Str)
    (h : (source >>= fun x => pure (extendPath x defaultExtensionPath)) = Outcome.ok r) :
    EndsWithSeparator r := by
  cases source with
  | error e => cases h
  | undefined => cases h
  | ok v => cases h; exact endsWithSeparator_extendPath _

theorem systemImpl_endsWithSeparator (p : Platform) (r : Str)
    (h : systemImpl p = Outcome.ok r) : EndsWithSeparator r := by
  unfold systemImpl at h
  simp only [] at h
  split at h
  · split at h
    · cases h
    · exact bind_extendPath_endsWithSeparator _ r h
  · cases h

theorem tempImpl_endsWithSeparator (p : Platform) (r : Str)
    (h : tempImpl p = Outcome.ok r) : EndsWithSeparator r := by
  unfold tempImpl at h
  simp only [] at h
  split at h
  · split at h
    · cases h
    · exact bind_extendPath_endsWithSeparator _ r h
  · cases h

theorem currentImpl_endsWithSeparator (p : Platform) (r : Str)
    (h : currentImpl p = Outcome.ok r) : EndsWithSeparator r := by
  unfold currentImpl at h
  simp only [] at h
  split at h
  · split at h
    · exact bind_extendPath_endsWithSeparator _ r h
    · cases h
  · cases h

/-- Extending the result of a query whose results already end with the
separator changes nothing: the outcome is the one of the query. -/
theorem bind_extendPath_of_closed (source : Outcome Str)
    (hs : ∀ r, source = Outcome.ok r → EndsWithSeparator r) :
    (source >>= fun x => pure (extendPath x defaultExtensionPath)) = source := by
  cases source with
  | error e => rfl
  | undefined => rfl
  | ok v =>
    show Outcome.ok (extendPath v defaultExtensionPath) = Outcome.ok v
    rw [extendPath_of_closed v (hs v rfl)]

theorem homeImpl_endsWithSeparator (p : Platform) (r : Str)
    (h : homeImpl p = Outcome.ok r) : EndsWithSeparator r :=
  bind_extendPath_endsWithSeparator _ r h

theorem homeImpl_of_userprofile (p : Platform) (v : Str)
    (hhas : p.hasImpl "USERPROFILE".toList = true)
    (hget : p.getImpl "USERPROFILE".toList = Except.ok v) :
    homeImpl p = Outcome.ok (extendPath v defaultExtensionPath) := by
  unfold homeImpl
  rw [if_pos hhas, hget]
  rfl

theorem homeImpl_of_homedrive (p : Platform) (d q : Str)
    (hup : p.hasImpl "USERPROFILE".toList = false)
    (hhd : p.hasImpl "HOMEDRIVE".toList = true)
    (hhp : p.hasImpl "HOMEPATH".toList = true)
    (hd : p.getImpl "HOMEDRIVE".toList = Except.ok d)
    (hq : p.getImpl "HOMEPATH".toList = Except.ok q) :
    homeImpl p = Outcome.ok (extendPath (d ++ q) defaultExtensionPath) := by
  unfold homeImpl
  simp only [hup, hhd, hhp, hd, hq]
  rfl

theorem homeImpl_of_system (p : Platform)
    (hup : p.hasImpl "USERPROFILE".toList = false)
    (hno : p.hasImpl "HOMEDRIVE".toList = false ∨ p.hasImpl "HOMEPATH".toList = false) :
    homeImpl p = (systemImpl p >>= fun x => pure (extendPath x defaultExtensionPath)) := by
  unfold homeImpl
  have hboth : (p.hasImpl "HOMEDRIVE".toList && p.hasImpl "HOMEPATH".toList) = false := by
    rcases hno with h | h <;> rw [h]
    · rfl
    · exact Bool.and_false _
  rw [hup, hboth]
  rfl

/-- C2: `homeImpl` returns `extendPath` of the value of `USERPROFILE` when that
variable is set, whatever `HOMEDRIVE` and `HOMEPATH` are; otherwise of the value
of `HOMEDRIVE` directly followed by the value of `HOMEPATH` when both are set;
otherwise of the result of `systemImpl`, failing exactly when (and as)
`systemImpl` fails. The two stated examples are instances. -/
theorem homeImpl_precedence (p : Platform) :
    (∀ v, p.hasImpl "USERPROFILE".toList = true →
      p.getImpl "USERPROFILE".toList = Except.ok v →
      homeImpl p = Outcome.ok (extendPath v defaultExtensionPath)) ∧
    (∀ d q, p.hasImpl "USERPROFILE".toList = false →
      p.hasImpl "HOMEDRIVE".toList = true → p.hasImpl "HOMEPATH".toList = true →
      p.getImpl "HOMEDRIVE".toList = Except.ok d →
      p.getImpl "HOMEPATH".toList = Except.ok q →
      homeImpl p = Outcome.ok (extendPath (d ++ q) defaultExtensionPath)) ∧
    (p.hasImpl "USERPROFILE".toList = false →
      (p.hasImpl "HOMEDRIVE".toList = false ∨ p.hasImpl "HOMEPATH".toList = false) →
      (∀ x, systemImpl p = Outcome.ok x →
        homeImpl p = Outcome.ok (extendPath x defaultExtensionPath)) ∧
      (∀ e, homeImpl p = Outcome.error e ↔ systemImpl p = Outcome.error e)) ∧
    (p.hasImpl "USERPROFILE".toList = true →
      p.getImpl "USERPROFILE".toList = Except.ok "C:\\Users\\alice".toList →
      homeImpl p = Outcome.ok "C:\\Users\\alice\\".toList) ∧
    (p.hasImpl "USERPROFILE".toList = false →
      p.hasImpl "HOMEDRIVE".toList = true → p.hasImpl "HOMEPATH".toList = true →
      p.getImpl "HOMEDRIVE".toList = Except.ok "C:".toList →
      p.getImpl "HOMEPATH".toList = Except.ok "\\Users\\bob".toList →
      homeImpl p = Outcome.ok "C:\\Users\\bob\\".toList) := by
  refine ⟨homeImpl_of_userprofile p, homeImpl_of_homedrive p, ?_, ?_, ?_⟩
  · intro hup hno
    rw [homeImpl_of_system p hup hno]
    constructor
    · intro x hx
      rw [hx]; rfl
    · intro e
      cases hs : systemImpl p with
      | error e1 => exact Iff.rfl
      | undefined =>
        constructor
        · intro h; cases h
        · intro h; cases h
      | ok x =>
        constructor
        · intro h; cases h
        · intro h; cases h
  · intro hhas hget
    rw [homeImpl_of_userprofile p _ hhas hget]
    decide
  · intro hup hhd hhp hd hq
    rw [homeImpl_of_homedrive p _ _ hup hhd hhp hd hq]
    decide

theorem homeImpl_precedence_witness :
    homeImpl (samplePlatform [("USERPROFILE", "C:\\Users\\alice"), ("HOMEDRIVE", "D:")]) =
      Outcome.ok "C:\\Users\\alice\\".toList ∧
    homeImpl (samplePlatform [("HOMEDRIVE", "C:"), ("HOMEPATH", "\\Users\\bob")]) =
      Outcome.ok "C:\\Users\\bob\\".toList ∧
    homeImpl (samplePlatform [("HOMEDRIVE", "C:")]) = Outcome.ok "C:\\".toList ∧
    (homeImpl zeroPlatform =
        Outcome.error (SystemException "Cannot get temporary directory path") ↔
      systemImpl zeroPlatform =
        Outcome.error (SystemException "Cannot get temporary directory path")) :=
  ⟨(homeImpl_precedence _).2.2.2.1 (by decide) (by decide),
   (homeImpl_precedence _).2.2.2.2 (by decide) (by decide) (by decide) (by decide)
     (by decide),
   ((homeImpl_precedence (samplePlatform [("HOMEDRIVE", "C:")])).2.2.1 (by decide)
     (by decide)).1 "C:\\".toList (by decide),
   ((homeImpl_precedence zeroPlatform).2.2.1 (by decide) (by decide)).2 _⟩

theorem configHomeImpl_of_notFound (p : Platform) (e : Exception)
    (hget : p.getImpl "APPDATA".toList = Except.error e) (hnf : e.isNotFound = true) :
    configHomeImpl p = homeImpl p := by
  unfold configHomeImpl getOrFallback
  rw [hget]
  simp only [hnf, if_true]
  exact bind_extendPath_of_closed _ (homeImpl_endsWithSeparator p)

/-- C3: in an environment whose accessor reports `APPDATA` as not found,
`configHomeImpl` has the outcome of `homeImpl`: the same string when `homeImpl`
succeeds and the same failure when it fails. -/
theorem configHomeImpl_eq_homeImpl (p : Platform) (e : Exception)
    (hget : p.getImpl "APPDATA".toList = Except.error e) (hnf : e.isNotFound = true) :
    configHomeImpl p = homeImpl p ∧
    (∀ r, homeImpl p = Outcome.ok r → configHomeImpl p = Outcome.ok r) ∧
    (∀ x, homeImpl p = Outcome.error x → configHomeImpl p = Outcome.error x) := by
  have h := configHomeImpl_of_notFound p e hget hnf
  exact ⟨h, fun r hr => h.trans hr, fun x hx => h.trans hx⟩

theorem configHomeImpl_eq_homeImpl_witness :
    configHomeImpl (samplePlatform [("USERPROFILE", "C:\\Users\\alice")]) =
      homeImpl (samplePlatform [("USERPROFILE", "C:\\Users\\alice")]) ∧
    configHomeImpl zeroPlatform = homeImpl zeroPlatform :=
  ⟨(configHomeImpl_eq_homeImpl _ ⟨ExceptionClass.NotFoundException, "APPDATA"⟩
      (by decide) (by decide)).1,
   (configHomeImpl_eq_homeImpl zeroPlatform ⟨ExceptionClass.NotFoundException, "APPDATA"⟩
      (by decide) (by decide)).1⟩

theorem getOrFallback_of_other (p : Platform) (name : Str) (e : Exception)
    (fallback : Outcome Str)
    (hget : p.getImpl name = Except.error e) (hother : e.isNotFound = false) :
    getOrFallback p name fallback = Outcome.error e := by
  unfold getOrFallback
  rw [hget]
  simp [hother]

theorem getOrFallback_of_notFound (p : Platform) (name : Str) (e : Exception)
    (fallback : Outcome Str)
    (hget : p.getImpl name = Except.error e) (hnf : e.isNotFound = true) :
    getOrFallback p name fallback = fallback := by
  unfold getOrFallback
  rw [hget]
  simp [hnf]

/-- C4: when `getImpl` fails for the variable of `configHomeImpl` (`APPDATA`),
`dataHomeImpl` (`LOCALAPPDATA`) or `configImpl` (`PROGRAMDATA`) with a failure
that is not "not found", the operation fails with that same failure and the
outcome of the guarded access does not depend on the fallback query; with a
"not found" failure the operation proceeds to its fallback (`homeImpl`,
`configHomeImpl`, `systemImpl`) and extends its result. -/
theorem accessor_failure_propagates (p : Platform) (e : Exception) :
    (e.isNotFound = false →
      (p.getImpl "APPDATA".toList = Except.error e →
        configHomeImpl p = Outcome.error e) ∧
      (p.getImpl "LOCALAPPDATA".toList = Except.error e →
        dataHomeImpl p = Outcome.error e) ∧
      (p.getImpl "PROGRAMDATA".toList = Except.error e →
        configImpl p = Outcome.error e) ∧
      (∀ name fallback, p.getImpl name = Except.error e →
        getOrFallback p name fallback = Outcome.error e)) ∧
    (e.isNotFound = true →
      (p.getImpl "APPDATA".toList = Except.error e →
        configHomeImpl p =
          (homeImpl p >>= fun x => pure (extendPath x defaultExtensionPath))) ∧
      (p.getImpl "LOCALAPPDATA".toList = Except.error e →
        dataHomeImpl p =
          (configHomeImpl p >>= fun x => pure (extendPath x defaultExtensionPath))) ∧
      (p.getImpl "PROGRAMDATA".toList = Except.error e →
        configImpl p =
          (systemImpl p >>= fun x => pure (extendPath x defaultExtensionPath)))) := by
  refine ⟨fun hother => ⟨?_, ?_, ?_, ?_⟩, fun hnf => ⟨?_, ?_, ?_⟩⟩
  · intro hget
    unfold configHomeImpl
    rw [getOrFallback_of_other p _ e _ hget hother]; rfl
  · intro hget
    unfold dataHomeImpl
    rw [getOrFallback_of_other p _ e _ hget hother]; rfl
  · intro hget
    unfold configImpl
    rw [getOrFallback_of_other p _ e _ hget hother]; rfl
  · intro name fallback hget
    exact getOrFallback_of_other p name e fallback hget hother
  · intro hget
    unfold configHomeImpl
    rw [getOrFallback_of_notFound p _ e _ hget hnf]
  · intro hget
    unfold dataHomeImpl
    rw [getOrFallback_of_notFound p _ e _ hget hnf]
  · intro hget
    unfold configImpl
    rw [getOrFallback_of_notFound p _ e _ hget hnf]

theorem accessor_failure_propagates_witness :
    configHomeImpl deniedPlatform =
      Outcome.error ⟨ExceptionClass.Other 5, "access denied"⟩ ∧
    dataHomeImpl deniedPlatform =
      Outcome.error ⟨ExceptionClass.Other 5, "access denied"⟩ ∧
    configImpl deniedPlatform =
      Outcome.error ⟨ExceptionClass.Other 5, "access denied"⟩ ∧
    configImpl (samplePlatform []) =
      (systemImpl (samplePlatform []) >>= fun x =>
        pure (extendPath x defaultExtensionPath)) :=
  ⟨((accessor_failure_propagates deniedPlatform _).1 (by decide)).1 (by decide),
   ((accessor_failure_propagates deniedPlatform _).1 (by decide)).2.1 (by decide),
   ((accessor_failure_propagates deniedPlatform _).1 (by decide)).2.2.1 (by decide),
   ((accessor_failure_propagates (samplePlatform [])
      ⟨ExceptionClass.NotFoundException, "PROGRAMDATA"⟩).2 (by decide)).2.2 (by decide)⟩

/-! ## The native queries -/

theorem sizeMinusOne_eq (size : Nat) (h0 : 0 < size) (h64 : size < 2 ^ 64) :
    sizeMinusOne size = size - 1 := by
  unfold sizeMinusOne
  omega

/-- C6: for a buffer of capacity `C = MAX_PATH_LEN` (a positive `size_t`) and
the length `n` reported by the native expansion, `expandImpl` never fails (it
neither throws nor reads past the buffer): when `0 < n < C - 1` it returns the
conversion of the string in the buffer, and in every other case (`n = 0` or
`n ≥ C - 1`) it returns the input path unchanged. -/
theorem expandImpl_outcome (p : Platform) (path : Str) (n : Nat) (buffer : Memory)
    (h0 : 0 < p.MAX_PATH_LEN) (h64 : p.MAX_PATH_LEN < 2 ^ 64)
    (hcall : p.ExpandEnvironmentStringsW (p.toUTF16 path) (toDWORD p.MAX_PATH_LEN) =
      (n, buffer)) :
    (∃ r, expandImpl p path = Outcome.ok r) ∧
    (0 < n ∧ n < p.MAX_PATH_LEN - 1 →
      expandImpl p path = Outcome.ok (p.toUTF8
        (stringIn (fun j => if j = n + 1 then 0 else buffer j) p.MAX_PATH_LEN))) ∧
    (n = 0 ∨ p.MAX_PATH_LEN - 1 ≤ n → expandImpl p path = Outcome.ok path) := by
  have hsz := sizeMinusOne_eq p.MAX_PATH_LEN h0 h64
  have hin : 0 < n ∧ n < p.MAX_PATH_LEN - 1 →
      expandImpl p path = Outcome.ok (p.toUTF8
        (stringIn (fun j => if j = n + 1 then 0 else buffer j) p.MAX_PATH_LEN)) := by
    intro h
    have hidx : n + 1 < p.MAX_PATH_LEN := by omega
    have hnul : ∃ j, j < p.MAX_PATH_LEN ∧
        (fun j => if j = n + 1 then 0 else buffer j) j = 0 :=
      ⟨n + 1, hidx, by simp⟩
    unfold expandImpl bufferSet
    simp only [hcall, hsz, gt_iff_lt, h, and_self, if_true, hidx]
    exact toUTF8FromPointer_of_nul p.toUTF8 _ _ hnul
  have hout : n = 0 ∨ p.MAX_PATH_LEN - 1 ≤ n → expandImpl p path = Outcome.ok path := by
    intro h
    have hc : ¬ (n > 0 ∧ n < p.MAX_PATH_LEN - 1) := by omega
    unfold expandImpl
    simp only [hcall, hsz, hc, if_false]
  refine ⟨?_, hin, hout⟩
  by_cases h : 0 < n ∧ n < p.MAX_PATH_LEN - 1
  · exact ⟨_, hin h⟩
  · exact ⟨_, hout (by omega)⟩

theorem expandImpl_outcome_witness :
    expandImpl (samplePlatform []) "ab".toList = Outcome.ok "ab".toList ∧
    expandImpl (samplePlatform []) "abcdefgh".toList = Outcome.ok "abcdefgh".toList :=
  ⟨(expandImpl_outcome (samplePlatform []) "ab".toList 3 (memOf [97, 98]) (by decide)
      (by decide) rfl).2.1 (by decide),
   (expandImpl_outcome (samplePlatform []) "abcdefgh".toList 9
      (memOf [97, 98, 99, 100, 101, 102, 103, 104]) (by decide) (by decide)
      rfl).2.2 (by decide)⟩

/-- C7 (amended): with `len` the length reported by the probing call of
capacity 0 and `n`, `buffer` the outcome of the second call of capacity `len`,
`currentImpl` returns if and only if `len > 0`, `0 < n ≤ len` and the buffer
holds a NUL among its `len` units, and then it returns `extendPath` of the
conversion of the units before the first NUL; when `len = 0`, `n = 0` or
`n > len` (and only then) it throws a `SystemException` whose message is
"Cannot get current directory"; when `len > 0` and `0 < n ≤ len` but the
buffer holds no NUL, the conversion reads past the buffer. -/
theorem currentImpl_outcome (p : Platform) (len n : Nat) (buffer : Memory)
    (hprobe : (p.GetCurrentDirectoryW 0).1 = len)
    (hcall : 0 < len → p.GetCurrentDirectoryW len = (n, buffer)) :
    ((∃ r, currentImpl p = Outcome.ok r) ↔
      (0 < len ∧ 0 < n ∧ n ≤ len ∧ ∃ j, j < len ∧ buffer j = 0)) ∧
    (0 < len ∧ 0 < n ∧ n ≤ len → (∃ j, j < len ∧ buffer j = 0) →
      currentImpl p =
        Outcome.ok (extendPath (p.toUTF8 (stringIn buffer len)) defaultExtensionPath)) ∧
    (0 < len ∧ 0 < n ∧ n ≤ len → (¬ ∃ j, j < len ∧ buffer j = 0) →
      currentImpl p = Outcome.undefined) ∧
    (¬ (0 < len ∧ 0 < n ∧ n ≤ len) →
      currentImpl p = Outcome.error (SystemException "Cannot get current directory")) ∧
    ((∃ e, currentImpl p = Outcome.error e) ↔ ¬ (0 < len ∧ 0 < n ∧ n ≤ len)) := by
  have hstep : 0 < len ∧ 0 < n ∧ n ≤ len →
      currentImpl p = (toUTF8FromPointer p.toUTF8 buffer len >>= fun result =>
        pure (extendPath result defaultExtensionPath)) := by
    intro h
    unfold currentImpl
    simp only [hprobe, hcall h.1, gt_iff_lt, h.1, h.2, and_self, if_true]
  have hin : 0 < len ∧ 0 < n ∧ n ≤ len → (∃ j, j < len ∧ buffer j = 0) →
      currentImpl p =
        Outcome.ok (extendPath (p.toUTF8 (stringIn buffer len)) defaultExtensionPath) := by
    intro h hnul
    rw [hstep h, toUTF8FromPointer_of_nul p.toUTF8 buffer len hnul]
    rfl
  have hpast : 0 < len ∧ 0 < n ∧ n ≤ len → (¬ ∃ j, j < len ∧ buffer j = 0) →
      currentImpl p = Outcome.undefined := by
    intro h hnul
    rw [hstep h, toUTF8FromPointer_of_no_nul p.toUTF8 buffer len hnul]
    rfl
  have hout : ¬ (0 < len ∧ 0 < n ∧ n ≤ len) →
      currentImpl p = Outcome.error (SystemException "Cannot get current directory") := by
    intro h
    unfold currentImpl
    simp only [hprobe, gt_iff_lt]
    by_cases hl : 0 < len
    · have hn : ¬ (0 < n ∧ n ≤ len) := fun hn => h ⟨hl, hn⟩
      simp only [hl, hcall hl, hn, if_true, if_false]
    · simp only [hl, if_false]
  refine ⟨⟨?_, fun h => ⟨_, hin ⟨h.1, h.2.1, h.2.2.1⟩ h.2.2.2⟩⟩, hin, hpast, hout,
    ⟨?_, fun h => ⟨_, hout h⟩⟩⟩
  · rintro ⟨r, hr⟩
    by_cases hc : 0 < len ∧ 0 < n ∧ n ≤ len
    · by_cases hnul : ∃ j, j < len ∧ buffer j = 0
      · exact ⟨hc.1, hc.2.1, hc.2.2, hnul⟩
      · rw [hpast hc hnul] at hr
        cases hr
    · rw [hout hc] at hr
      cases hr
  · rintro ⟨e, he⟩ hc
    by_cases hnul : ∃ j, j < len ∧ buffer j = 0
    · rw [hin hc hnul] at he
      cases he
    · rw [hpast hc hnul] at he
      cases he

theorem currentImpl_outcome_witness :
    currentImpl (samplePlatform []) = Outcome.ok "C:\\".toList ∧
    currentImpl unterminatedPlatform = Outcome.undefined ∧
    currentImpl { samplePlatform [] with GetCurrentDirectoryW := fun _ => (0, memOf []) } =
      Outcome.error (SystemException "Cannot get current directory") ∧
    currentImpl { samplePlatform [] with
        GetCurrentDirectoryW := fun cap => if cap = 0 then (2, memOf []) else (3, memOf []) } =
      Outcome.error (SystemException "Cannot get current directory") :=
  ⟨(currentImpl_outcome (samplePlatform []) 4 3 (memOf [67, 58, 92]) rfl
      (fun _ => rfl)).2.1 (by decide) (by decide),
   (currentImpl_outcome unterminatedPlatform 4 4 (fun _ => 65) rfl
      (fun _ => rfl)).2.2.1 (by decide) (by decide),
   (currentImpl_outcome
      { samplePlatform [] with GetCurrentDirectoryW := fun _ => (0, memOf []) }
      0 0 (memOf []) rfl (fun _ => rfl)).2.2.2.1 (by decide),
   (currentImpl_outcome
      { samplePlatform [] with
        GetCurrentDirectoryW := fun cap => if cap = 0 then (2, memOf []) else (3, memOf []) }
      2 3 (memOf []) rfl (fun _ => rfl)).2.2.2.1 (by decide)⟩

/-- C7 as stated fails: with a probe length of 4, a written length of 4 (so
that `len > 0` and `0 < n ≤ len`) and a buffer whose 4 units are all non-NUL,
`currentImpl` does not return the conversion of the 4 units of the buffer:
`toUTF8(buffer.begin(), result)` gets no length and its scan for the
terminator reads past the buffer. -/
theorem currentImpl_reads_past_buffer :
    (unterminatedPlatform.GetCurrentDirectoryW 0).1 = 4 ∧
    (unterminatedPlatform.GetCurrentDirectoryW 4).1 = 4 ∧
    (∀ j, j < 4 → (unterminatedPlatform.GetCurrentDirectoryW 4).2 j ≠ 0) ∧
    currentImpl unterminatedPlatform = Outcome.undefined ∧
    ¬ (∃ r, currentImpl unterminatedPlatform = Outcome.ok r) := by
  have h : currentImpl unterminatedPlatform = Outcome.undefined := by decide
  refine ⟨rfl, rfl, by decide, h, ?_⟩
  rintro ⟨r, hr⟩
  rw [h] at hr
  cases hr

/-- C8: evaluation of the code where both the system-directory and the
temp-directory native queries report 0: `systemImpl` fails with the message
"Cannot get temporary directory path", which is the very message of `tempImpl`
for its own failing query, whereas the other failure of `systemImpl` is
reported as "Cannot get system directory long path name". -/
theorem systemImpl_message_at_zero :
    systemImpl zeroPlatform =
      Outcome.error (SystemException "Cannot get temporary directory path") ∧
    tempImpl zeroPlatform =
      Outcome.error (SystemException "Cannot get temporary directory path") ∧
    systemImpl { samplePlatform [] with GetLongPathNameW := fun _ _ => (0, memOf []) } =
      Outcome.error (SystemException "Cannot get system directory long path name") := by
  decide

/-- C9: whenever one of `currentImpl`, `systemImpl`, `tempImpl`,
`cacheHomeImpl`, `homeImpl`, `configHomeImpl`, `dataHomeImpl`, `configImpl`
returns a string, the string is empty or ends with the native separator. -/
theorem directory_queries_end_with_separator (p : Platform) (r : Str) :
    (currentImpl p = Outcome.ok r → EndsWithSeparator r) ∧
    (systemImpl p = Outcome.ok r → EndsWithSeparator r) ∧
    (tempImpl p = Outcome.ok r → EndsWithSeparator r) ∧
    (cacheHomeImpl p = Outcome.ok r → EndsWithSeparator r) ∧
    (homeImpl p = Outcome.ok r → EndsWithSeparator r) ∧
    (configHomeImpl p = Outcome.ok r → EndsWithSeparator r) ∧
    (dataHomeImpl p = Outcome.ok r → EndsWithSeparator r) ∧
    (configImpl p = Outcome.ok r → EndsWithSeparator r) :=
  ⟨currentImpl_endsWithSeparator p r, systemImpl_endsWithSeparator p r,
   tempImpl_endsWithSeparator p r, tempImpl_endsWithSeparator p r,
   homeImpl_endsWithSeparator p r,
   bind_extendPath_endsWithSeparator _ r, bind_extendPath_endsWithSeparator _ r,
   bind_extendPath_endsWithSeparator _ r⟩

theorem directory_queries_end_with_separator_witness :
    EndsWithSeparator "C:\\".toList ∧
    EndsWithSeparator "C:\\Users\\alice\\".toList ∧
    EndsWithSeparator "D:\\data\\".toList ∧
    EndsWithSeparator [] :=
  ⟨(directory_queries_end_with_separator (samplePlatform []) _).2.1
      (show systemImpl (samplePlatform []) = Outcome.ok "C:\\".toList by decide),
   (directory_queries_end_with_separator
      (samplePlatform [("USERPROFILE", "C:\\Users\\alice")]) _).2.2.2.2.1
      (show homeImpl (samplePlatform [("USERPROFILE", "C:\\Users\\alice")]) =
        Outcome.ok "C:\\Users\\alice\\".toList by decide),
   (directory_queries_end_with_separator
      (samplePlatform [("LOCALAPPDATA", "D:\\data")]) _).2.2.2.2.2.2.1
      (show dataHomeImpl (samplePlatform [("LOCALAPPDATA", "D:\\data")]) =
        Outcome.ok "D:\\data\\".toList by decide),
   (directory_queries_end_with_separator
      { samplePlatform [] with GetCurrentDirectoryW := fun _ => (4, memOf []) } _).1
      (show currentImpl
        { samplePlatform [] with GetCurrentDirectoryW := fun _ => (4, memOf []) } =
        Outcome.ok [] by decide)⟩

/-! ## `listRootsImpl` -/

theorem runUnits_succ (buffer : Memory) (start len : Nat) :
    runUnits buffer start (len + 1) = buffer start :: runUnits buffer (start + 1) len := by
  unfold runUnits
  rw [List.range_succ_eq_map, List.map_cons, List.map_map]
  simp only [Nat.add_zero, List.cons.injEq, true_and]
  apply List.map_congr_left
  intro j _
  simp only [Function.comp_apply]
  congr 1
  omega

/-- The inner loop, from a position `it ≤ end_` with enough fuel, stops after
a run of `len` non-NUL units, at the end of the scanned range or on a NUL. -/
theorem collectEntry_spec (buffer : Memory) (end_ : Nat) :
    ∀ fuel it udev, it ≤ end_ → end_ - it < fuel →
      ∃ len, collectEntry buffer end_ fuel it udev =
          some (it + len, udev ++ runUnits buffer it len) ∧
        it + len ≤ end_ ∧
        (∀ j, j < len → buffer (it + j) ≠ 0) ∧
        (it + len < end_ → buffer (it + len) = 0) := by
  intro fuel
  induction fuel with
  | zero => intro it udev _ h; omega
  | succ fuel ih =>
    intro it udev hle hfuel
    by_cases hlt : it < end_
    · by_cases hz : buffer it ≠ 0
      · obtain ⟨len, hres, hbound, hrun, hstop⟩ :=
          ih (it + 1) (udev ++ [buffer it]) (by omega) (by omega)
        refine ⟨len + 1, ?_, by omega, ?_, ?_⟩
        · rw [collectEntry, if_pos hlt, if_pos hz, hres, runUnits_succ]
          simp [Nat.add_assoc, Nat.add_comm 1 len]
        · intro j hj
          cases j with
          | zero => exact hz
          | succ j =>
            have := hrun j (by omega)
            rwa [Nat.add_assoc, Nat.add_comm 1 j] at this
        · intro h
          have := hstop (by omega)
          rwa [Nat.add_assoc, Nat.add_comm 1 len] at this
      · refine ⟨0, ?_, by omega, ?_, ?_⟩
        · rw [collectEntry, if_pos hlt, if_neg hz]
          simp [runUnits]
        · intro j hj; omega
        · intro _; simpa using hz
    · refine ⟨0, ?_, by omega, ?_, ?_⟩
      · rw [collectEntry, if_neg hlt]
        simp [runUnits]
      · intro j hj; omega
      · intro h; omega

/-- The inner loop on an entry `e` that lies in the buffer at `it` and is
followed by its NUL before `end_`: it collects exactly `e`. -/
theorem collectEntry_entry (buffer : Memory) (end_ : Nat) :
    ∀ (e : WStr) (fuel it : Nat) (udev : WStr), 0 ∉ e →
      (∀ j, j < e.length → buffer (it + j) = e.getD j 0) →
      buffer (it + e.length) = 0 → it + e.length < end_ → e.length < fuel →
      collectEntry buffer end_ fuel it udev = some (it + e.length, udev ++ e) := by
  intro e
  induction e with
  | nil =>
    intro fuel it udev _ _ hz hlt hfuel
    cases fuel with
    | zero => omega
    | succ fuel =>
      have hlt1 : it < end_ := by simpa using hlt
      have hz1 : buffer it = 0 := by simpa using hz
      rw [collectEntry, if_pos hlt1, if_neg (by simp [hz1])]
      simp
  | cons a t ih =>
    intro fuel it udev hnul hbuf hz hlt hfuel
    cases fuel with
    | zero => omega
    | succ fuel =>
      simp only [List.length_cons] at hz hlt hfuel hbuf
      have hlt1 : it < end_ := by omega
      have ha : buffer it = a := by simpa using hbuf 0 (by omega)
      have hane : a ≠ 0 := fun h => hnul (by simp [h])
      have htail : ∀ j, j < t.length → buffer (it + 1 + j) = t.getD j 0 := by
        intro j hj
        have := hbuf (j + 1) (by omega)
        rw [List.getD_cons_succ] at this
        rw [← this]; congr 1; omega
      have hrec := ih fuel (it + 1) (udev ++ [a]) (fun h => hnul (List.mem_cons_of_mem _ h))
        htail (by rw [← hz]; congr 1; omega) (by omega) (by omega)
      rw [collectEntry, if_pos hlt1, if_pos (by rw [ha]; exact hane), ha, hrec]
      simp only [List.length_cons, List.append_assoc, List.singleton_append, Option.some.injEq,
        Prod.mk.injEq, and_true]
      omega

/-- The outer loop on a range that holds the entries `entries`, each followed
by its NUL: it appends the conversions of the entries in order. -/
theorem scanRoots_entries (toUTF8 : WStr → Str) (buffer : Memory) (end_ : Nat)
    (hend : end_ ≤ bufferSize) :
    ∀ (entries : List WStr) (fuel it : Nat) (roots : List Str),
      (∀ e, e ∈ entries → 0 ∉ e) →
      (∀ i, i < (joinEntries entries).length →
        buffer (it + i) = (joinEntries entries).getD i 0) →
      end_ = it + (joinEntries entries).length → entries.length < fuel →
      scanRoots toUTF8 buffer end_ fuel it roots = some (roots ++ entries.map toUTF8) := by
  intro entries
  induction entries with
  | nil =>
    intro fuel it roots _ _ hlen hfuel
    cases fuel with
    | zero => simp at hfuel
    | succ fuel =>
      have hnot : ¬ it < end_ := by simp [joinEntries] at hlen; omega
      rw [scanRoots, if_neg hnot]
      simp
  | cons e es ih =>
    intro fuel it roots hnul hbuf hlen hfuel
    cases fuel with
    | zero => simp at hfuel
    | succ fuel =>
      have hjoin : joinEntries (e :: es) = e ++ 0 :: joinEntries es := rfl
      rw [hjoin] at hbuf hlen
      simp only [List.length_append, List.length_cons] at hbuf hlen
      have hlt : it < end_ := by omega
      have hcollect : collectEntry buffer end_ (bufferSize + 1) it [] =
          some (it + e.length, e) := by
        have := collectEntry_entry buffer end_ e (bufferSize + 1) it []
          (hnul e (List.mem_cons_self _ _))
          (fun j hj => by
            rw [hbuf j (by omega), List.getD_append _ _ _ _ hj])
          (by
            rw [hbuf e.length (by omega), List.getD_append_right _ _ _ _ (le_refl _)]
            simp)
          (by omega) (by omega)
        simpa using this
      have hrest := ih fuel (it + e.length + 1) (roots ++ [toUTF8 e])
        (fun x hx => hnul x (List.mem_cons_of_mem _ hx))
        (fun i hi => by
          have h1 := hbuf (e.length + 1 + i) (by omega)
          rw [List.getD_append_right _ _ _ _ (by omega)] at h1
          have h2 : e.length + 1 + i - e.length = i + 1 := by omega
          rw [h2, List.getD_cons_succ] at h1
          rw [← h1]; congr 1; omega)
        (by omega) (by simpa using hfuel)
      rw [scanRoots, if_pos hlt, hcollect]
      simp only [hrest, List.map_cons, List.append_assoc, List.singleton_append]

theorem joinEntries_length_ge (entries : List WStr) :
    entries.length ≤ (joinEntries entries).length := by
  induction entries with
  | nil => simp [joinEntries]
  | cons e es ih => simp only [joinEntries, List.length_append, List.length_cons]; omega

/-- C5: for entries without NUL whose multi-string encoding fits in the
enumeration buffer and lies at its beginning, with the reported length `n`
counting the units up to and including the NUL of the last entry,
`listRootsImpl` replaces whatever the output held by the conversions of the
entries, in order. (The entries need not even be non-empty.) -/
theorem listRootsImpl_entries (p : Platform) (entries : List WStr) (old : List Str)
    (hnul : ∀ e, e ∈ entries → 0 ∉ e)
    (hfit : (multiString entries).length ≤ bufferSize)
    (hbuf : ∀ i, i < (multiString entries).length →
      (p.GetLogicalDriveStringsW (bufferSize - 1)).2 i = (multiString entries).getD i 0)
    (hn : (p.GetLogicalDriveStringsW (bufferSize - 1)).1 + 1 = (multiString entries).length) :
    listRootsImpl p old = some (entries.map p.toUTF8) := by
  simp only [multiString, List.length_append, List.length_singleton] at hfit hbuf hn
  have hn1 : (p.GetLogicalDriveStringsW (bufferSize - 1)).1 = (joinEntries entries).length := by
    omega
  have hle : (joinEntries entries).length ≤ bufferSize := by omega
  unfold listRootsImpl vectorClear
  simp only [hn1, gt_iff_lt, if_neg (Nat.not_lt.mpr hle)]
  have := scanRoots_entries p.toUTF8 (p.GetLogicalDriveStringsW (bufferSize - 1)).2
    (joinEntries entries).length hle entries (bufferSize + 1) 0 []
    hnul
    (fun i hi => by
      rw [Nat.zero_add, hbuf i (by omega), List.getD_append _ _ _ _ hi])
    (by omega)
    (by have := joinEntries_length_ge entries; omega)
  simpa using this

theorem listRootsImpl_entries_witness :
    listRootsImpl (samplePlatform []) ["stale".toList] =
      some ["C:\\".toList, "D:\\".toList] :=
  listRootsImpl_entries (samplePlatform []) [[67, 58, 92], [68, 58, 92]] ["stale".toList]
    (by decide) (by decide) (by decide) (by decide)

/-- The outer loop, from a position that starts an entry, with enough fuel:
it returns, and every string it appends is the conversion of a complete entry
of the scanned range, except that the last one may be cut off by the end of the
range. -/
theorem scanRoots_spec (toUTF8 : WStr → Str) (buffer : Memory) (end_ : Nat)
    (hend : end_ ≤ bufferSize) :
    ∀ (fuel it : Nat) (roots : List Str),
      (it = 0 ∨ buffer (it - 1) = 0 ∨ end_ < it) → end_ - it < fuel →
      ∃ rs, scanRoots toUTF8 buffer end_ fuel it roots = some (roots ++ rs) ∧
        (end_ ≤ it → rs = []) ∧
        (∀ s, s ∈ rs.dropLast → CompleteEntry toUTF8 buffer end_ s) ∧
        (∀ s, rs.getLast? = some s →
          CompleteEntry toUTF8 buffer end_ s ∨ CutOffEntry toUTF8 buffer end_ s) := by
  intro fuel
  induction fuel with
  | zero => intro it roots _ h; omega
  | succ fuel ih =>
    intro it roots hstart hfuel
    by_cases hlt : it < end_
    · obtain ⟨len, hres, hbound, hrun, hstop⟩ :=
        collectEntry_spec buffer end_ (bufferSize + 1) it [] (by omega) (by omega)
      have hstart1 : it = 0 ∨ buffer (it - 1) = 0 := by
        rcases hstart with h | h | h
        · exact Or.inl h
        · exact Or.inr h
        · omega
      have hnext : it + len + 1 = 0 ∨ buffer (it + len + 1 - 1) = 0 ∨ end_ < it + len + 1 := by
        by_cases h : it + len < end_
        · exact Or.inr (Or.inl (by simpa using hstop h))
        · exact Or.inr (Or.inr (by omega))
      obtain ⟨rs, hscan, hdone, hinit, hlast⟩ :=
        ih (it + len + 1) (roots ++ [toUTF8 (runUnits buffer it len)]) hnext (by omega)
      refine ⟨toUTF8 (runUnits buffer it len) :: rs, ?_, by omega, ?_, ?_⟩
      · rw [scanRoots, if_pos hlt, hres]
        simp only [List.nil_append, hscan, List.append_assoc, List.singleton_append]
      · intro s hs
        cases rs with
        | nil => simp at hs
        | cons r rs1 =>
          have hopen : it + len < end_ := by
            by_contra h
            have := hdone (by omega)
            cases this
          rw [List.dropLast_cons₂, List.mem_cons] at hs
          rcases hs with hs | hs
          · subst hs
            exact ⟨it, len, hopen, hstart1, hrun, hstop hopen, rfl⟩
          · exact hinit s hs
      · intro s hs
        cases rs with
        | nil =>
          simp only [List.getLast?_singleton, Option.some.injEq] at hs
          subst hs
          by_cases hopen : it + len < end_
          · exact Or.inl ⟨it, len, hopen, hstart1, hrun, hstop hopen, rfl⟩
          · exact Or.inr ⟨it, len, by omega, hstart1, hrun, rfl⟩
        | cons r rs1 =>
          rw [List.getLast?_cons_cons] at hs
          exact hlast s hs
    · refine ⟨[], ?_, fun _ => rfl, ?_, ?_⟩
      · rw [scanRoots, if_neg hlt]
        simp
      · intro s hs; simp at hs
      · intro s hs; simp at hs

/-- The loops of `listRootsImpl` never run out of their fuel: the function
returns on every platform. -/
theorem listRootsImpl_total (p : Platform) (old : List Str) :
    ∃ rs, listRootsImpl p old = some rs := by
  have hend : (if (p.GetLogicalDriveStringsW (bufferSize - 1)).1 > bufferSize then bufferSize
      else (p.GetLogicalDriveStringsW (bufferSize - 1)).1) ≤ bufferSize := by
    split <;> omega
  obtain ⟨rs, hscan, _⟩ :=
    scanRoots_spec p.toUTF8 (p.GetLogicalDriveStringsW (bufferSize - 1)).2 _ hend
      (bufferSize + 1) 0 [] (Or.inl rfl) (by omega)
  exact ⟨rs, by unfold listRootsImpl vectorClear; simpa using hscan⟩

/-- The inner loop reads the buffer only below `end_`. -/
theorem collectEntry_congr (b1 b2 : Memory) (end_ : Nat)
    (h : ∀ i, i < end_ → b1 i = b2 i) :
    ∀ (fuel it : Nat) (udev : WStr),
      collectEntry b1 end_ fuel it udev = collectEntry b2 end_ fuel it udev := by
  intro fuel
  induction fuel with
  | zero => intro it udev; rfl
  | succ fuel ih =>
    intro it udev
    by_cases hlt : it < end_
    · rw [collectEntry, collectEntry, if_pos hlt, if_pos hlt, h it hlt, ih]
    · rw [collectEntry, collectEntry, if_neg hlt, if_neg hlt]

/-- The outer loop reads the buffer only below `end_`. -/
theorem scanRoots_congr (toUTF8 : WStr → Str) (b1 b2 : Memory) (end_ : Nat)
    (h : ∀ i, i < end_ → b1 i = b2 i) :
    ∀ (fuel it : Nat) (roots : List Str),
      scanRoots toUTF8 b1 end_ fuel it roots = scanRoots toUTF8 b2 end_ fuel it roots := by
  intro fuel
  induction fuel with
  | zero => intro it roots; rfl
  | succ fuel ih =>
    intro it roots
    by_cases hlt : it < end_
    · rw [scanRoots, scanRoots, if_pos hlt, if_pos hlt, collectEntry_congr b1 b2 end_ h]
      cases collectEntry b2 end_ (bufferSize + 1) it [] with
      | none => rfl
      | some r => simp only [ih]
    · rw [scanRoots, scanRoots, if_neg hlt, if_neg hlt]

theorem listRootsImpl_end_of_oversized (n : Nat) (hn : bufferSize - 1 < n) :
    (if n > bufferSize then bufferSize else n) = bufferSize := by
  by_cases h : n > bufferSize
  · rw [if_pos h]
  · rw [if_neg h]; unfold bufferSize at *; omega

/-- C10 (amended): when the reported length exceeds the capacity passed to the
facility (127 units), `listRootsImpl` returns, whatever the buffer holds; its
outcome depends on the first 128 units of the buffer only; every string it
returns except the last is the conversion of a complete entry of the buffer (a
run of non-NUL units followed inside the buffer by its NUL), and the last is
the conversion of a complete entry or of a run of non-NUL units that reaches
the last unit of the buffer. -/
theorem listRootsImpl_oversized (p : Platform) (old : List Str)
    (hn : bufferSize - 1 < (p.GetLogicalDriveStringsW (bufferSize - 1)).1) :
    (∃ rs, listRootsImpl p old = some rs ∧
      (∀ s, s ∈ rs.dropLast →
        CompleteEntry p.toUTF8 (p.GetLogicalDriveStringsW (bufferSize - 1)).2 bufferSize s) ∧
      (∀ s, rs.getLast? = some s →
        CompleteEntry p.toUTF8 (p.GetLogicalDriveStringsW (bufferSize - 1)).2 bufferSize s ∨
        CutOffEntry p.toUTF8 (p.GetLogicalDriveStringsW (bufferSize - 1)).2 bufferSize s)) ∧
    (∀ (q : Platform) (old1 : List Str), q.toUTF8 = p.toUTF8 →
      (q.GetLogicalDriveStringsW (bufferSize - 1)).1 =
        (p.GetLogicalDriveStringsW (bufferSize - 1)).1 →
      (∀ i, i < bufferSize → (q.GetLogicalDriveStringsW (bufferSize - 1)).2 i =
        (p.GetLogicalDriveStringsW (bufferSize - 1)).2 i) →
      listRootsImpl q old1 = listRootsImpl p old) := by
  have hend := listRootsImpl_end_of_oversized _ hn
  constructor
  · obtain ⟨rs, hscan, _, hinit, hlast⟩ :=
      scanRoots_spec p.toUTF8 (p.GetLogicalDriveStringsW (bufferSize - 1)).2 bufferSize
        (le_refl _) (bufferSize + 1) 0 [] (Or.inl rfl) (by omega)
    refine ⟨rs, ?_, hinit, hlast⟩
    unfold listRootsImpl vectorClear
    simp only [hend, hscan, List.nil_append]
  · intro q old1 hconv hlen hmem
    unfold listRootsImpl vectorClear
    simp only [hlen, hend, hconv]
    exact scanRoots_congr p.toUTF8 _ _ bufferSize hmem _ _ _

theorem listRootsImpl_oversized_witness :
    ∃ rs, listRootsImpl fullPlatform ["stale".toList] = some rs ∧
      (∀ s, s ∈ rs.dropLast →
        CompleteEntry fullPlatform.toUTF8 (fun _ => 65) bufferSize s) ∧
      (∀ s, rs.getLast? = some s →
        CompleteEntry fullPlatform.toUTF8 (fun _ => 65) bufferSize s ∨
        CutOffEntry fullPlatform.toUTF8 (fun _ => 65) bufferSize s) :=
  (listRootsImpl_oversized fullPlatform ["stale".toList] (by decide)).1

set_option maxRecDepth 100000 in
/-- C10 as stated fails: with a reported length of 200 and a buffer that holds
no NUL, `listRootsImpl` returns one string, the conversion of all 128 units of
the buffer, which is not the conversion of any complete entry. -/
theorem listRootsImpl_returns_fragment :
    listRootsImpl fullPlatform [] = some [List.replicate 128 'A'] ∧
    ¬ CompleteEntry fullPlatform.toUTF8 (fullPlatform.GetLogicalDriveStringsW 127).2
        bufferSize (List.replicate 128 'A') := by
  constructor
  · decide
  · rintro ⟨start, len, _, _, _, hz, _⟩
    have h65 : (65 : Nat) = 0 := hz
    exact absurd h65 (by decide)

end Poco.PathImpl
